import Mathlib

/-!
Verification of the LCEL composition kernel described in the repository's
migration guide (docs/docs/how_to/migrate_chains.ipynb) and its specification.

The notebook contains the concrete user-level code (get_session_history,
get_history, format_docs, and the composed chains); the composition
primitives themselves (Runnable, sequences, parallel maps, passthrough,
assign, and RunnableWithMessageHistory) live outside the provided sources,
so they are modelled from the specification, as marked on each definition.
-/

/-- Generic runtime value flowing between composed units: a string, an
integer, a list, or a string-keyed mapping. -/
inductive Value where
  | str : String → Value
  | num : Int → Value
  | list : List Value → Value
  | map : List (String × Value) → Value
deriving Repr

/-- Error taxonomy of the composition core.  `branchFailure` models the
spec's PartialFailure: it carries the names of the failing branches. -/
inductive Err where
  | executionError : String → Err
  | inputError : String → Err
  | configError : String → Err
  | branchFailure : List String → Err
deriving Repr, DecidableEq

/-- Modelled from the spec: a Unit (a Runnable in the source's terms) is an
invocable component; `invoke` either produces an output value or fails. -/
abbrev Runnable := Value → Except Err Value

/-- Modelled from the spec: `Sequence` binds an ordered list of units and
feeds the input to the first, each result to the next, failing fast on the
first error. -/
def Sequence.invoke (units : List Runnable) (x : Value) : Except Err Value :=
  units.foldl (fun acc u => Except.bind acc u) (Except.ok x)

/-- Modelled from the spec: `Passthrough.invoke` returns its input
unchanged (identity unit, RunnablePassthrough in the source). -/
def Passthrough.invoke (x : Value) : Except Err Value :=
  Except.ok x

/-- A retrieved document; only its `page_content` field is consumed by the
formatter in the source notebook. -/
structure Document where
  page_content : String
deriving Repr, DecidableEq

/-- Embeds the notebook's formatter:
`def format_docs(docs): return "\n\n".join(doc.page_content for doc in docs)`. -/
def format_docs (docs : List Document) : String :=
  String.intercalate "\n\n" (docs.map (fun d => d.page_content))

/-- Projects a successful result out of an `Except`, `none` on error. -/
def exceptOk (r : Except Err Value) : Option Value :=
  match r with
  | Except.ok v => some v
  | Except.error _ => none

/-- Modelled from the spec: `ParallelMap` binds a mapping from output keys
to units; every bound unit receives the same input, the output keys follow
configuration order, and if any branch fails the whole operation fails
with a branch failure carrying the failing branch names. -/
def ParallelMap.invoke (cfg : List (String × Runnable)) (x : Value) :
    Except Err (List (String × Value)) :=
  let results := cfg.map (fun p => (p.1, p.2 x))
  let failed := (results.filter (fun p => (exceptOk p.2).isNone)).map (fun p => p.1)
  if failed.isEmpty then
    Except.ok (results.filterMap (fun p => (exceptOk p.2).map (fun v => (p.1, v))))
  else
    Except.error (Err.branchFailure failed)

/-- Sets key `k` to value `v` in a string-keyed association list: if the
key is already present every binding of it is overwritten in place,
otherwise the new binding is appended at the end (the semantics of a
Python dict merge). -/
def setKey (m : List (String × Value)) (k : String) (v : Value) :
    List (String × Value) :=
  if m.any (fun p => p.1 == k) then
    m.map (fun p => if p.1 == k then (p.1, v) else p)
  else
    m ++ [(k, v)]

/-- Modelled from the spec: evaluates each assigned field's unit against
the original input mapping, failing fast on the first field error. -/
def computeFields (fields : List (String × Runnable))
    (x : List (String × Value)) : Except Err (List (String × Value)) :=
  match fields with
  | [] => Except.ok []
  | (f, u) :: rest =>
    match u (Value.map x), computeFields rest x with
    | Except.ok v, Except.ok vs => Except.ok ((f, v) :: vs)
    | Except.error e, _ => Except.error e
    | _, Except.error e => Except.error e

/-- Modelled from the spec: `Assign(fields).invoke(x)` computes each
field's unit against the input mapping `x` and returns `x` with the
computed fields merged in under their names, collisions overwriting. -/
def Assign.invoke (fields : List (String × Runnable))
    (x : List (String × Value)) : Except Err (List (String × Value)) :=
  match computeFields fields x with
  | Except.error e => Except.error e
  | Except.ok kvs => Except.ok (kvs.foldl (fun m p => setKey m p.1 p.2) x)

/-- Role tag of one conversation turn. -/
inductive Role where
  | user : Role
  | assistant : Role
  | system : Role
deriving Repr, DecidableEq

/-- One role-tagged message of a conversation history. -/
structure Message where
  role : Role
  content : String
deriving Repr, DecidableEq

/-- The in-memory history store of the source notebook: a mapping from
session id to the ordered message sequence of that session (the
module-level `store` dict of the notebook, embedded as an association
list). -/
abbrev Store := List (String × List Message)

/-- The entry a caller observes for a session id: the stored message
sequence, or the empty sequence when the id is absent. -/
def storeGet (s : Store) (sid : String) : List Message :=
  (List.lookup sid s).getD []

/-- Embeds the notebook's per-session provider:
`if session_id not in store: store[session_id] = InMemoryChatMessageHistory()`
then `return store[session_id]`.  Returns the possibly-extended store and
the entry for the session.  The freshly constructed
InMemoryChatMessageHistory is modelled, per the spec, as an empty message
sequence. -/
def get_session_history (s : Store) (sid : String) : Store × List Message :=
  match List.lookup sid s with
  | some h => (s, h)
  | none => (s ++ [(sid, [])], [])

/-- Appends one message to the entry of session `sid` (every binding of
the key, of which a well-formed store has exactly one). -/
def storeAppend (s : Store) (sid : String) (m : Message) : Store :=
  s.map (fun p => if p.1 == sid then (p.1, p.2 ++ [m]) else p)

/-- Modelled from the spec: `SessionRunner` (RunnableWithMessageHistory in
the source) resolves the session's history through the get-or-create
provider, delegates to the base unit with that history and the caller's
input, and on success appends the user input message followed by the
assistant output message; on failure the error is propagated and nothing
is appended. -/
def SessionRunner.invoke (base : List Message → String → Except Err String)
    (s : Store) (sid : String) (input : String) :
    Except Err String × Store :=
  match get_session_history s sid with
  | (s₁, history) =>
    match base history input with
    | Except.error e => (Except.error e, s₁)
    | Except.ok out =>
      (Except.ok out,
        storeAppend (storeAppend s₁ sid ⟨Role.user, input⟩) sid
          ⟨Role.assistant, out⟩)

/-- Embeds the notebook's zero-argument provider variant
(`def get_history(): return history` over the single module-level
`history` object): the runner reads and appends one shared message log;
the caller's session id, when supplied at all, is never consulted. -/
def SessionRunner.invokeShared
    (base : List Message → String → Except Err String)
    (sid : Option String) (history : List Message) (input : String) :
    Except Err String × List Message :=
  match base history input with
  | Except.error e => (Except.error e, history)
  | Except.ok out =>
    (Except.ok out, history ++ [⟨Role.user, input⟩, ⟨Role.assistant, out⟩])

/-- Concatenation of streamed chunks in yield order. -/
def concatChunks (cs : List String) : String :=
  cs.foldl (fun a c => a ++ c) ""

/-- Modelled from the spec: a terminal text-producing unit exposing both
`invoke` and `stream` (chunks are incremental text spans). -/
structure TextUnit where
  invoke : Value → Except Err String
  stream : Value → Except Err (List String)

/-- The stream/invoke contract of the spec: the chunks of `stream`
concatenate, in yield order, to exactly the output of `invoke`. -/
def LawfulStream (u : TextUnit) : Prop :=
  ∀ x, u.invoke x = Except.map concatChunks (u.stream x)

/-- Modelled from the spec: the default stream of a unit that only defines
`invoke` yields the full invoke result as a single chunk. -/
def defaultStream (inv : Value → Except Err String) : TextUnit :=
  { invoke := inv, stream := fun x => Except.map (fun o => [o]) (inv x) }

/-- Modelled from the spec: in a Sequence only the last stage streams; all
preceding stages (`pre`, already composed) run to completion first. -/
def Sequence.streamLast (pre : Runnable) (last : TextUnit) (x : Value) :
    Except Err (List String) :=
  Except.bind (pre x) last.stream

/-- Invoke of the same two-part sequence: run the preceding stages, then
the last stage's `invoke`. -/
def Sequence.invokeLast (pre : Runnable) (last : TextUnit) (x : Value) :
    Except Err String :=
  Except.bind (pre x) last.invoke

/-- C3: composing two units in a Sequence and invoking it on `x` is the
same as invoking the first and feeding its result (when it exists) to the
second; a failure of the first stage propagates, which is exactly
`Except.bind`. -/
theorem sequence_two_invoke (A B : Runnable) (x : Value) :
    Sequence.invoke [A, B] x = Except.bind (A x) B := rfl

/-- C6: the Passthrough unit is the identity: invoking it on any value
returns that value unchanged. -/
theorem passthrough_identity (x : Value) :
    Passthrough.invoke x = Except.ok x := rfl

/-- Overwriting the bindings of key `k` leaves lookups of any other key
unchanged. -/
theorem lookup_map_overwrite (m : List (String × Value)) (k k' : String)
    (v : Value) (h : k' ≠ k) :
    List.lookup k' (m.map (fun p => if p.1 == k then (p.1, v) else p)) =
      List.lookup k' m := by
  induction m with
  | nil => rfl
  | cons p rest ih =>
    obtain ⟨pk, pv⟩ := p
    rw [List.map_cons]
    by_cases hpk : pk = k
    · have hb : (pk == k) = true := beq_iff_eq.mpr hpk
      have hk' : (k' == pk) = false := beq_eq_false_iff_ne.mpr (hpk ▸ h)
      rw [hb]
      simp only [if_true, List.lookup_cons, hk']
      exact ih
    · have hb : (pk == k) = false := beq_eq_false_iff_ne.mpr hpk
      rw [hb]
      simp only [Bool.false_eq_true, if_false, List.lookup_cons]
      cases hbk : (k' == pk) with
      | true => rfl
      | false => exact ih

/-- When key `k` occurs in `m`, overwriting its bindings with `v` makes
lookup of `k` return `v`. -/
theorem lookup_map_overwrite_self (m : List (String × Value)) (k : String)
    (v : Value) (h : m.any (fun p => p.1 == k) = true) :
    List.lookup k (m.map (fun p => if p.1 == k then (p.1, v) else p)) =
      some v := by
  induction m with
  | nil => simp at h
  | cons p rest ih =>
    obtain ⟨pk, pv⟩ := p
    rw [List.map_cons]
    by_cases hpk : pk = k
    · have hb : (pk == k) = true := beq_iff_eq.mpr hpk
      have hk : (k == pk) = true := beq_iff_eq.mpr hpk.symm
      rw [hb]
      simp only [if_true, List.lookup_cons, hk]
    · have hb : (pk == k) = false := beq_eq_false_iff_ne.mpr hpk
      have hk : (k == pk) = false := beq_eq_false_iff_ne.mpr (fun e => hpk e.symm)
      rw [List.any_cons, hb, Bool.false_or] at h
      rw [hb]
      simp only [Bool.false_eq_true, if_false, List.lookup_cons, hk]
      exact ih h

/-- When key `k` occurs nowhere in `m`, appending the binding `(k, v)`
makes lookup of `k` return `v`. -/
theorem lookup_append_self (m : List (String × Value)) (k : String)
    (v : Value) (h : m.any (fun p => p.1 == k) = false) :
    List.lookup k (m ++ [(k, v)]) = some v := by
  induction m with
  | nil => simp [List.lookup_cons]
  | cons p rest ih =>
    obtain ⟨pk, pv⟩ := p
    rw [List.any_cons, Bool.or_eq_false_iff] at h
    have hk : (k == pk) = false := by
      rcases beq_eq_false_iff_ne.mp h.1 with hne
      exact beq_eq_false_iff_ne.mpr (fun e => hne e.symm)
    rw [List.cons_append, List.lookup_cons, hk]
    exact ih h.2

/-- Appending a binding for key `k` leaves lookups of any other key
unchanged. -/
theorem lookup_append_other (m : List (String × Value)) (k k' : String)
    (v : Value) (h : k' ≠ k) :
    List.lookup k' (m ++ [(k, v)]) = List.lookup k' m := by
  induction m with
  | nil =>
    have hk : (k' == k) = false := beq_eq_false_iff_ne.mpr h
    simp [List.lookup_cons, hk]
  | cons p rest ih =>
    obtain ⟨pk, pv⟩ := p
    rw [List.cons_append, List.lookup_cons, List.lookup_cons]
    cases hbk : (k' == pk) with
    | true => rfl
    | false => exact ih

/-- Looking up the key just set by `setKey` yields the new value. -/
theorem lookup_setKey_self (m : List (String × Value)) (k : String)
    (v : Value) : List.lookup k (setKey m k v) = some v := by
  unfold setKey
  cases hany : m.any (fun p => p.1 == k) with
  | true => simp only [if_true]; exact lookup_map_overwrite_self m k v hany
  | false =>
    simp only [Bool.false_eq_true, if_false]
    exact lookup_append_self m k v hany

/-- Keys other than the one set by `setKey` keep their original value. -/
theorem lookup_setKey_other (m : List (String × Value)) (k : String)
    (v : Value) (k' : String) (h : k' ≠ k) :
    List.lookup k' (setKey m k v) = List.lookup k' m := by
  unfold setKey
  cases hany : m.any (fun p => p.1 == k) with
  | true => simp only [if_true]; exact lookup_map_overwrite m k k' v h
  | false =>
    simp only [Bool.false_eq_true, if_false]
    exact lookup_append_other m k k' v h

/-- C9: `format_docs` is a pure function of the ordered sequence of the
documents' contents: two calls on document sequences with equal contents
return equal strings. -/
theorem format_docs_deterministic (ds₁ ds₂ : List Document)
    (h : ds₁.map (fun d => d.page_content) = ds₂.map (fun d => d.page_content)) :
    format_docs ds₁ = format_docs ds₂ := by
  unfold format_docs
  rw [h]

/-- Witness for C9 at a concrete pair of document lists. -/
theorem format_docs_deterministic_witness :
    format_docs [⟨"alpha"⟩, ⟨"beta"⟩] = format_docs [⟨"alpha"⟩, ⟨"beta"⟩] :=
  format_docs_deterministic [⟨"alpha"⟩, ⟨"beta"⟩] [⟨"alpha"⟩, ⟨"beta"⟩] rfl

/-- C4: a two-branch ParallelMap whose branches both succeed returns
exactly the mapping sending each key to its branch's output on the shared
input, in configuration order; running the branches in the other order
yields the same mapping (equal lookups at every key). -/
theorem parallelMap_two_branches (k₁ k₂ : String) (A B : Runnable)
    (x a b : Value) (hA : A x = Except.ok a) (hB : B x = Except.ok b)
    (hk : k₁ ≠ k₂) :
    ParallelMap.invoke [(k₁, A), (k₂, B)] x = Except.ok [(k₁, a), (k₂, b)] ∧
    ParallelMap.invoke [(k₂, B), (k₁, A)] x = Except.ok [(k₂, b), (k₁, a)] ∧
    ∀ k, List.lookup k [(k₁, a), (k₂, b)] =
      List.lookup k [(k₂, b), (k₁, a)] := by
  refine ⟨?_, ?_, ?_⟩
  · simp [ParallelMap.invoke, hA, hB, exceptOk]
  · simp [ParallelMap.invoke, hA, hB, exceptOk]
  · intro k
    simp only [List.lookup_cons]
    by_cases h₁ : k = k₁
    · have b₁ : (k == k₁) = true := beq_iff_eq.mpr h₁
      have b₂ : (k == k₂) = false :=
        beq_eq_false_iff_ne.mpr (fun e => hk (h₁.symm.trans e))
      simp only [b₁, b₂]
    · have b₁ : (k == k₁) = false := beq_eq_false_iff_ne.mpr h₁
      cases b₂ : (k == k₂) with
      | true => simp only [b₁, b₂]
      | false => simp only [b₁, b₂]

/-- Witness for C4 at a concrete configuration. -/
theorem parallelMap_two_branches_witness :
    ParallelMap.invoke
        [("context", fun _ => Except.ok (Value.str "ctx")),
         ("question", fun v => Except.ok v)] (Value.str "q") =
      Except.ok [("context", Value.str "ctx"), ("question", Value.str "q")] ∧
    ParallelMap.invoke
        [("question", fun v => Except.ok v),
         ("context", fun _ => Except.ok (Value.str "ctx"))] (Value.str "q") =
      Except.ok [("question", Value.str "q"), ("context", Value.str "ctx")] ∧
    ∀ k, List.lookup k
        [("context", Value.str "ctx"), ("question", Value.str "q")] =
      List.lookup k
        [("question", Value.str "q"), ("context", Value.str "ctx")] :=
  parallelMap_two_branches "context" "question"
    (fun _ => Except.ok (Value.str "ctx")) (fun v => Except.ok v)
    (Value.str "q") (Value.str "ctx") (Value.str "q") rfl rfl (by decide)

/-- C5: assigning a single field computes the field's unit on the input
mapping and returns the input with that key set to the result; the
assigned key looks up to the new value (overwriting any colliding input
key) and every other key keeps its original value. -/
theorem assign_single_field (f : String) (U : Runnable)
    (x : List (String × Value)) (v : Value)
    (hU : U (Value.map x) = Except.ok v) :
    Assign.invoke [(f, U)] x = Except.ok (setKey x f v) ∧
    List.lookup f (setKey x f v) = some v ∧
    ∀ k, k ≠ f → List.lookup k (setKey x f v) = List.lookup k x := by
  refine ⟨?_, lookup_setKey_self x f v,
    fun k hk => lookup_setKey_other x f v k hk⟩
  simp [Assign.invoke, computeFields, hU, List.foldl]

/-- Witness for C5 at the notebook's outer chain shape: assigning the
field `text` over the input mapping with key `adjective`. -/
theorem assign_single_field_witness :
    Assign.invoke [("text", fun _ => Except.ok (Value.str "joke"))]
        [("adjective", Value.str "funny")] =
      Except.ok (setKey [("adjective", Value.str "funny")] "text"
        (Value.str "joke")) ∧
    List.lookup "text" (setKey [("adjective", Value.str "funny")] "text"
        (Value.str "joke")) = some (Value.str "joke") ∧
    ∀ k, k ≠ "text" →
      List.lookup k (setKey [("adjective", Value.str "funny")] "text"
        (Value.str "joke")) =
      List.lookup k [("adjective", Value.str "funny")] :=
  assign_single_field "text" (fun _ => Except.ok (Value.str "joke"))
    [("adjective", Value.str "funny")] (Value.str "joke") rfl

/-- Appending a fresh binding at the end of a store in which the session
id is absent makes lookup of that id find the new entry. -/
theorem store_lookup_append_fresh (s : Store) (sid : String)
    (e : List Message) (h : List.lookup sid s = none) :
    List.lookup sid (s ++ [(sid, e)]) = some e := by
  induction s with
  | nil => simp [List.lookup_cons]
  | cons p rest ih =>
    obtain ⟨pk, pv⟩ := p
    rw [List.lookup_cons] at h
    cases hb : (sid == pk) with
    | true => rw [hb] at h; exact absurd h (by simp)
    | false =>
      rw [hb] at h
      rw [List.cons_append, List.lookup_cons, hb]
      exact ih h

/-- Appending one message to the entry of a present session id extends
the looked-up message sequence by that message. -/
theorem store_lookup_storeAppend (s : Store) (sid : String) (m : Message)
    (msgs : List Message) (h : List.lookup sid s = some msgs) :
    List.lookup sid (storeAppend s sid m) = some (msgs ++ [m]) := by
  induction s with
  | nil => simp [List.lookup] at h
  | cons p rest ih =>
    obtain ⟨pk, pv⟩ := p
    rw [List.lookup_cons] at h
    unfold storeAppend
    rw [List.map_cons]
    cases hb : (sid == pk) with
    | true =>
      rw [hb] at h
      have hpk : pk = sid := (beq_iff_eq.mp hb).symm
      have hb' : (pk == sid) = true := beq_iff_eq.mpr hpk
      rw [hb']
      simp only [if_true, List.lookup_cons, hb]
      simp at h
      rw [h]
    | false =>
      rw [hb] at h
      have hb' : (pk == sid) = false :=
        beq_eq_false_iff_ne.mpr (fun e => (beq_eq_false_iff_ne.mp hb) e.symm)
      rw [hb']
      simp only [Bool.false_eq_true, if_false, List.lookup_cons, hb]
      exact ih h

/-- The entry returned by the get-or-create provider is exactly what
`storeGet` observes for the session id. -/
theorem get_session_history_snd (s : Store) (sid : String) :
    (get_session_history s sid).2 = storeGet s sid := by
  unfold get_session_history storeGet
  cases h : List.lookup sid s <;> simp [h]

/-- After the get-or-create provider runs, the session id is present in
the returned store and bound to the observed entry. -/
theorem get_session_history_fst_lookup (s : Store) (sid : String) :
    List.lookup sid (get_session_history s sid).1 =
      some (storeGet s sid) := by
  unfold get_session_history storeGet
  cases h : List.lookup sid s with
  | some v => simp [h]
  | none => simp [h, store_lookup_append_fresh s sid [] h]

/-- Concatenating a single chunk yields that chunk. -/
theorem concatChunks_singleton (o : String) : concatChunks [o] = o := by
  show "" ++ o = o
  cases o with
  | mk d => rfl

/-- C7: the get-or-create provider never fails: on an absent session id it
creates and returns the empty entry, and a subsequent get on the updated
store returns that same entry and leaves the store unchanged. -/
theorem historyStore_get_or_create (s : Store) (sid : String)
    (h : List.lookup sid s = none) :
    get_session_history s sid = (s ++ [(sid, [])], []) ∧
    get_session_history (s ++ [(sid, [])]) sid = (s ++ [(sid, [])], []) := by
  constructor
  · unfold get_session_history
    rw [h]
  · unfold get_session_history
    rw [store_lookup_append_fresh s sid [] h]

/-- Witness for C7 on the empty store and a concrete session id. -/
theorem historyStore_get_or_create_witness :
    get_session_history [] "abc123" = ([("abc123", [])], []) ∧
    get_session_history [("abc123", [])] "abc123" =
      ([("abc123", [])], []) :=
  historyStore_get_or_create [] "abc123" rfl

/-- C2: when the base unit fails, the SessionRunner propagates the error
and the entry observed for the session id is unchanged — no message is
appended. -/
theorem sessionRunner_failure_no_append
    (base : List Message → String → Except Err String) (s : Store)
    (sid input : String) (e : Err)
    (hfail : base (storeGet s sid) input = Except.error e) :
    (SessionRunner.invoke base s sid input).1 = Except.error e ∧
    storeGet (SessionRunner.invoke base s sid input).2 sid =
      storeGet s sid := by
  have hinv : SessionRunner.invoke base s sid input =
      (Except.error e, (get_session_history s sid).1) := by
    unfold SessionRunner.invoke
    cases hg : get_session_history s sid with
    | mk s₁ hist =>
      have hh : hist = storeGet s sid := by
        rw [← get_session_history_snd s sid, hg]
      dsimp only
      rw [hh, hfail]
  rw [hinv]
  refine ⟨rfl, ?_⟩
  unfold storeGet
  rw [get_session_history_fst_lookup s sid]
  rfl

/-- Witness for C2 with a base unit that always raises an execution
error, on the empty store. -/
theorem sessionRunner_failure_no_append_witness :
    (SessionRunner.invoke (fun _ _ => Except.error (Err.executionError "boom"))
        [] "abc123" "hi").1 = Except.error (Err.executionError "boom") ∧
    storeGet (SessionRunner.invoke
        (fun _ _ => Except.error (Err.executionError "boom"))
        [] "abc123" "hi").2 "abc123" = storeGet [] "abc123" :=
  sessionRunner_failure_no_append
    (fun _ _ => Except.error (Err.executionError "boom"))
    [] "abc123" "hi" (Err.executionError "boom") rfl

/-- C1: on a fresh session id, a first successful call stores exactly the
user input message followed by the assistant output message, and a second
successful call on the same session id extends the entry to the four
messages user-A, assistant-resp1, user-B, assistant-resp2 in order. -/
theorem sessionRunner_two_calls
    (base : List Message → String → Except Err String) (s : Store)
    (sid iA iB r₁ r₂ : String)
    (hfresh : List.lookup sid s = none)
    (h₁ : base [] iA = Except.ok r₁)
    (h₂ : base [⟨Role.user, iA⟩, ⟨Role.assistant, r₁⟩] iB = Except.ok r₂) :
    (SessionRunner.invoke base s sid iA).1 = Except.ok r₁ ∧
    storeGet (SessionRunner.invoke base s sid iA).2 sid =
      [⟨Role.user, iA⟩, ⟨Role.assistant, r₁⟩] ∧
    (SessionRunner.invoke base
        (SessionRunner.invoke base s sid iA).2 sid iB).1 = Except.ok r₂ ∧
    storeGet (SessionRunner.invoke base
        (SessionRunner.invoke base s sid iA).2 sid iB).2 sid =
      [⟨Role.user, iA⟩, ⟨Role.assistant, r₁⟩,
       ⟨Role.user, iB⟩, ⟨Role.assistant, r₂⟩] := by
  have hg1 : get_session_history s sid = (s ++ [(sid, [])], []) := by
    unfold get_session_history
    rw [hfresh]
  have hinv1 : SessionRunner.invoke base s sid iA =
      (Except.ok r₁,
        storeAppend (storeAppend (s ++ [(sid, [])]) sid ⟨Role.user, iA⟩)
          sid ⟨Role.assistant, r₁⟩) := by
    unfold SessionRunner.invoke
    rw [hg1]
    dsimp only
    rw [h₁]
  have l0 : List.lookup sid (s ++ [(sid, ([] : List Message))]) = some [] :=
    store_lookup_append_fresh s sid [] hfresh
  have l1 : List.lookup sid
      (storeAppend (s ++ [(sid, [])]) sid ⟨Role.user, iA⟩) =
      some [⟨Role.user, iA⟩] := by
    simpa using
      store_lookup_storeAppend (s ++ [(sid, [])]) sid ⟨Role.user, iA⟩ [] l0
  have l2 : List.lookup sid
      (storeAppend (storeAppend (s ++ [(sid, [])]) sid ⟨Role.user, iA⟩)
        sid ⟨Role.assistant, r₁⟩) =
      some [⟨Role.user, iA⟩, ⟨Role.assistant, r₁⟩] := by
    simpa using
      store_lookup_storeAppend
        (storeAppend (s ++ [(sid, [])]) sid ⟨Role.user, iA⟩) sid
        ⟨Role.assistant, r₁⟩ [⟨Role.user, iA⟩] l1
  have hg2 : get_session_history
      (storeAppend (storeAppend (s ++ [(sid, [])]) sid ⟨Role.user, iA⟩)
        sid ⟨Role.assistant, r₁⟩) sid =
      (storeAppend (storeAppend (s ++ [(sid, [])]) sid ⟨Role.user, iA⟩)
        sid ⟨Role.assistant, r₁⟩,
       [⟨Role.user, iA⟩, ⟨Role.assistant, r₁⟩]) := by
    unfold get_session_history
    rw [l2]
  have hinv2 : SessionRunner.invoke base
      (storeAppend (storeAppend (s ++ [(sid, [])]) sid ⟨Role.user, iA⟩)
        sid ⟨Role.assistant, r₁⟩) sid iB =
      (Except.ok r₂,
        storeAppend (storeAppend
          (storeAppend (storeAppend (s ++ [(sid, [])]) sid ⟨Role.user, iA⟩)
            sid ⟨Role.assistant, r₁⟩) sid ⟨Role.user, iB⟩)
          sid ⟨Role.assistant, r₂⟩) := by
    unfold SessionRunner.invoke
    rw [hg2]
    dsimp only
    rw [h₂]
  have l3 : List.lookup sid
      (storeAppend (storeAppend (storeAppend
        (storeAppend (s ++ [(sid, [])]) sid ⟨Role.user, iA⟩)
        sid ⟨Role.assistant, r₁⟩) sid ⟨Role.user, iB⟩)
        sid ⟨Role.assistant, r₂⟩) =
      some [⟨Role.user, iA⟩, ⟨Role.assistant, r₁⟩,
            ⟨Role.user, iB⟩, ⟨Role.assistant, r₂⟩] := by
    have l3a : List.lookup sid
        (storeAppend (storeAppend (storeAppend (s ++ [(sid, [])]) sid
          ⟨Role.user, iA⟩) sid ⟨Role.assistant, r₁⟩) sid ⟨Role.user, iB⟩) =
        some [⟨Role.user, iA⟩, ⟨Role.assistant, r₁⟩, ⟨Role.user, iB⟩] := by
      simpa using
        store_lookup_storeAppend _ sid ⟨Role.user, iB⟩
          [⟨Role.user, iA⟩, ⟨Role.assistant, r₁⟩] l2
    simpa using
      store_lookup_storeAppend _ sid ⟨Role.assistant, r₂⟩
        [⟨Role.user, iA⟩, ⟨Role.assistant, r₁⟩, ⟨Role.user, iB⟩] l3a
  rw [hinv1]
  refine ⟨rfl, ?_, ?_, ?_⟩
  · unfold storeGet
    rw [l2]
    rfl
  · rw [hinv2]
  · rw [hinv2]
    unfold storeGet
    rw [l3]
    rfl

/-- Witness for C1 with an echoing base unit on the empty store. -/
theorem sessionRunner_two_calls_witness :
    (SessionRunner.invoke (fun _ inp => Except.ok ("echo:" ++ inp))
        [] "abc123" "A").1 = Except.ok "echo:A" ∧
    storeGet (SessionRunner.invoke (fun _ inp => Except.ok ("echo:" ++ inp))
        [] "abc123" "A").2 "abc123" =
      [⟨Role.user, "A"⟩, ⟨Role.assistant, "echo:A"⟩] ∧
    (SessionRunner.invoke (fun _ inp => Except.ok ("echo:" ++ inp))
        (SessionRunner.invoke (fun _ inp => Except.ok ("echo:" ++ inp))
          [] "abc123" "A").2 "abc123" "B").1 = Except.ok "echo:B" ∧
    storeGet (SessionRunner.invoke (fun _ inp => Except.ok ("echo:" ++ inp))
        (SessionRunner.invoke (fun _ inp => Except.ok ("echo:" ++ inp))
          [] "abc123" "A").2 "abc123" "B").2 "abc123" =
      [⟨Role.user, "A"⟩, ⟨Role.assistant, "echo:A"⟩,
       ⟨Role.user, "B"⟩, ⟨Role.assistant, "echo:B"⟩] :=
  sessionRunner_two_calls (fun _ inp => Except.ok ("echo:" ++ inp))
    [] "abc123" "A" "B" "echo:A" "echo:B" rfl rfl rfl

/-- C8: chunks concatenate to the invoke result: the default stream of a
unit defined by its invoke satisfies the contract, and the contract is
preserved by Sequence composition — when the terminal stage satisfies it,
the composed invoke equals the chunk concatenation of the composed
stream. -/
theorem stream_concat_eq_invoke (pre : Runnable) (last : TextUnit)
    (x : Value) (hlaw : LawfulStream last) :
    (∀ inv, LawfulStream (defaultStream inv)) ∧
    Sequence.invokeLast pre last x =
      Except.map concatChunks (Sequence.streamLast pre last x) := by
  constructor
  · intro inv y
    show inv y = Except.map concatChunks (Except.map (fun o => [o]) (inv y))
    cases hy : inv y with
    | ok o => simp [Except.map, concatChunks_singleton]
    | error e => rfl
  · unfold Sequence.invokeLast Sequence.streamLast
    cases hp : pre x with
    | ok v => exact hlaw v
    | error e => rfl

/-- Witness for C8 with an identity front stage and a terminal unit whose
stream yields the invoke output in two chunks. -/
theorem stream_concat_eq_invoke_witness :
    (∀ inv, LawfulStream (defaultStream inv)) ∧
    Sequence.invokeLast (fun v => Except.ok v)
        ⟨fun _ => Except.ok "hi", fun _ => Except.ok ["h", "i"]⟩
        (Value.str "q") =
      Except.map concatChunks
        (Sequence.streamLast (fun v => Except.ok v)
          ⟨fun _ => Except.ok "hi", fun _ => Except.ok ["h", "i"]⟩
          (Value.str "q")) :=
  stream_concat_eq_invoke (fun v => Except.ok v)
    ⟨fun _ => Except.ok "hi", fun _ => Except.ok ["h", "i"]⟩ (Value.str "q")
    (fun _ => rfl)

/-- C10: with the zero-argument provider the runner's behavior does not
depend on any supplied session id, and successive successful calls —
whatever their session ids — append their user/assistant message pairs to
the one shared log. -/
theorem sessionRunner_shared_log
    (base : List Message → String → Except Err String)
    (sid₁ sid₂ : Option String) (h : List Message) (i₁ i₂ o₁ o₂ : String)
    (h₁ : base h i₁ = Except.ok o₁)
    (h₂ : base (h ++ [⟨Role.user, i₁⟩, ⟨Role.assistant, o₁⟩]) i₂ =
      Except.ok o₂) :
    (∀ (a b : Option String) (hist : List Message) (inp : String),
        SessionRunner.invokeShared base a hist inp =
          SessionRunner.invokeShared base b hist inp) ∧
    SessionRunner.invokeShared base sid₁ h i₁ =
      (Except.ok o₁, h ++ [⟨Role.user, i₁⟩, ⟨Role.assistant, o₁⟩]) ∧
    SessionRunner.invokeShared base sid₂
        (h ++ [⟨Role.user, i₁⟩, ⟨Role.assistant, o₁⟩]) i₂ =
      (Except.ok o₂,
        h ++ [⟨Role.user, i₁⟩, ⟨Role.assistant, o₁⟩,
              ⟨Role.user, i₂⟩, ⟨Role.assistant, o₂⟩]) := by
  refine ⟨fun a b hist inp => rfl, ?_, ?_⟩
  · unfold SessionRunner.invokeShared
    rw [h₁]
  · unfold SessionRunner.invokeShared
    rw [h₂]
    simp

/-- Witness for C10: two callers with different session ids (and one with
none) share one log. -/
theorem sessionRunner_shared_log_witness :
    (∀ (a b : Option String) (hist : List Message) (inp : String),
        SessionRunner.invokeShared
            (fun _ inp => Except.ok ("r:" ++ inp)) a hist inp =
          SessionRunner.invokeShared
            (fun _ inp => Except.ok ("r:" ++ inp)) b hist inp) ∧
    SessionRunner.invokeShared (fun _ inp => Except.ok ("r:" ++ inp))
        (some "alice") [] "A" =
      (Except.ok "r:A", [⟨Role.user, "A"⟩, ⟨Role.assistant, "r:A"⟩]) ∧
    SessionRunner.invokeShared (fun _ inp => Except.ok ("r:" ++ inp))
        none [⟨Role.user, "A"⟩, ⟨Role.assistant, "r:A"⟩] "B" =
      (Except.ok "r:B",
        [⟨Role.user, "A"⟩, ⟨Role.assistant, "r:A"⟩,
         ⟨Role.user, "B"⟩, ⟨Role.assistant, "r:B"⟩]) := by
  have base := sessionRunner_shared_log
    (fun _ inp => Except.ok ("r:" ++ inp)) (some "alice") none
    [] "A" "B" "r:A" "r:B" rfl rfl
  simpa using base
